import Mathlib

/-!
Shallow embedding of the KF-Datacloud store (src/index.js): a key-value
store backed by a remote two-column spreadsheet.  The in-memory Map
(Cache), the ordered key list _keyRowNumbers (RowIndex), the remote data
rows, and the public operations get / ensure / set / delete / deleteAll
are translated from the source.  The lodash path helpers (_.get, _.set,
_.unset, _.isPlainObject) used by the source are embedded following their
JavaScript semantics on JSON-like values.
-/

namespace KFDatacloud

/-- A JavaScript JSON-like value, including the JavaScript value
undefined, which the source code uses as the absent marker. -/
inductive Value where
  | undef
  | null
  | bool (b : Bool)
  | num (n : Int)
  | str (s : String)
  | arr (elems : List Value)
  | obj (fields : List (String × Value))

/-- Test for the JavaScript value undefined. -/
def Value.isUndef : Value → Bool
  | .undef => true
  | _ => false

/-- The JavaScript test typeof v === 'object': true for plain objects,
arrays and null; false for undefined and all other primitives. -/
def Value.typeofObject : Value → Bool
  | .null => true
  | .arr _ => true
  | .obj _ => true
  | _ => false

/-- The lodash isObject test: like typeof v === 'object' but false for
null. -/
def Value.isObjectJS : Value → Bool
  | .arr _ => true
  | .obj _ => true
  | _ => false

/-- The lodash isPlainObject test: true exactly for plain objects. -/
def Value.isPlainObject : Value → Bool
  | .obj _ => true
  | _ => false

/-- A JavaScript value usable as a Map key in this code base: the public
API documents keys as string or number, and hydration produces a string
or undefined (empty cell). -/
inductive JsKey where
  | str (s : String)
  | num (n : Int)
  | undef
deriving DecidableEq

/-- A path already split into its components, as lodash toPath produces
from a dotted/bracketed path string. -/
abbrev JsPath := List String

/-- Whether a character is a decimal digit. -/
def isDigitChar (c : Char) : Bool := '0' ≤ c && c ≤ '9'

/-- Numeric value of a list of decimal digits. -/
def digitsToNat (cs : List Char) : Nat :=
  cs.foldl (fun acc c => acc * 10 + (c.toNat - '0'.toNat)) 0

/-- Canonical array-index property keys, as JavaScript defines them:
a string of decimal digits with no leading zero (except the string 0
itself).  Returns the index when the key is canonical. -/
def canonicalIndex? (k : String) : Option Nat :=
  match k.toList with
  | [] => none
  | c :: cs =>
    if isDigitChar c && cs.all isDigitChar && (decide (c ≠ '0') || decide (cs = [])) then
      some (digitsToNat (c :: cs))
    else none

/-- Property read v[k] as the lodash get walk performs it: object fields
by name, array elements by canonical index (plus the length property),
characters of a string by index, undefined everywhere else.
Non-index own properties of arrays are not modelled. -/
def getProp : Value → String → Value
  | .obj fields, k =>
    match fields.find? (fun p => p.1 == k) with
    | some p => p.2
    | none => .undef
  | .arr elems, k =>
    if k = "length" then .num elems.length
    else
      match canonicalIndex? k with
      | some i => (elems.get? i).getD .undef
      | none => .undef
  | .str s, k =>
    if k = "length" then .num s.length
    else
      match canonicalIndex? k with
      | some i =>
        match s.toList.get? i with
        | some c => .str (String.mk [c])
        | none => .undef
      | none => .undef
  | _, _ => (.undef : Value)

/-- The walk of lodash baseGet: successive property reads; an empty path
returns the value itself (the callers special-case it). -/
def getPath : Value → JsPath → Value
  | v, [] => v
  | v, k :: rest => getPath (getProp v k) rest

/-- The lodash function _.get(v, path): baseGet, except that an empty
path yields undefined. -/
def lodashGet (v : Value) (p : JsPath) : Value :=
  match p with
  | [] => .undef
  | _ :: _ => getPath v p

/-- The lodash function _.get(v, path, default): the default replaces an
undefined result. -/
def lodashGetD (v : Value) (p : JsPath) (d : Value) : Value :=
  let r := lodashGet v p
  if r.isUndef then d else r

/-- Replace the value of field k when present, otherwise append it: the
JavaScript assignment obj[k] = v on a plain object. -/
def objAssign : List (String × Value) → String → Value → List (String × Value)
  | [], k, v => [(k, v)]
  | p :: rest, k, v => if p.1 = k then (k, v) :: rest else p :: objAssign rest k v

/-- Write elems[i] = v on a JavaScript array, padding with holes (read
back as undefined) when i is past the end. -/
def arrAssign (elems : List Value) (i : Nat) (v : Value) : List Value :=
  if i < elems.length then elems.set i v
  else elems ++ List.replicate (i - elems.length) .undef ++ [v]

/-- Property assignment v[k] = nv as lodash assignValue performs it
during a deep set.  Assignments to primitives are silently dropped, as
in non-strict JavaScript.  Array length assignment resizes when given a
number.  Non-index own properties of arrays are not modelled. -/
def setProp : Value → String → Value → Value
  | .obj fields, k, nv => .obj (objAssign fields k nv)
  | .arr elems, k, nv =>
    if k = "length" then
      match nv with
      | .num n => .arr (if n.toNat ≤ elems.length then elems.take n.toNat
                        else elems ++ List.replicate (n.toNat - elems.length) .undef)
      | _ => .arr elems
    else
      match canonicalIndex? k with
      | some i => .arr (arrAssign elems i nv)
      | none => .arr elems
  | v, _, _ => v

/-- The lodash function _.set(v, path, nv) (baseSet): walks the path,
creating an empty array or object for a missing or non-object
intermediate according to whether the next key is a canonical index, and
assigns at the final key.  Setting on a non-object root returns the root
unchanged, and an empty path changes nothing. -/
def baseSet : Value → JsPath → Value → Value
  | v, [], _ => v
  | v, [k], nv => setProp v k nv
  | v, k :: k' :: rest, nv =>
    let child := getProp v k
    let child' := if child.isObjectJS then child
                  else if (canonicalIndex? k').isSome then Value.arr []
                  else Value.obj []
    setProp v k (baseSet child' (k' :: rest) nv)

/-- Property deletion delete v[k]: removes an object field; on an array
a canonical index leaves a hole read back as undefined; primitives are
unchanged. -/
def deleteProp : Value → String → Value
  | .obj fields, k => .obj (fields.filter (fun p => !(p.1 == k)))
  | .arr elems, k =>
    match canonicalIndex? k with
    | some i => .arr (if i < elems.length then elems.set i .undef else elems)
    | none => .arr elems
  | v, _ => v

/-- Replace the value of field k when present; unlike objAssign, never
insert a missing field. -/
def objReplace : List (String × Value) → String → Value → List (String × Value)
  | [], _, _ => []
  | p :: rest, k, v => if p.1 = k then (k, v) :: rest else p :: objReplace rest k v

/-- The lodash function _.unset(v, path) (baseUnset), returning the
pruned value: resolves the parent of the final key by pure reads and
deletes the final key there; when the parent does not resolve to an
object nothing changes.  An empty path deletes the property named
undefined, as the JavaScript coercion does. -/
def baseUnset : Value → JsPath → Value
  | v, [] => deleteProp v "undefined"
  | v, [k] => deleteProp v k
  | .obj fields, k :: k' :: rest =>
    .obj (objReplace fields k (baseUnset (getProp (Value.obj fields) k) (k' :: rest)))
  | .arr elems, k :: k' :: rest =>
    match canonicalIndex? k with
    | some i =>
      match elems.get? i with
      | some c => .arr (elems.set i (baseUnset c (k' :: rest)))
      | none => .arr elems
    | none => .arr elems
  | v, _ :: _ :: _ => v

/-! The in-memory Map (the Cache inherited from Map): an insertion
ordered association list with unique keys, mirroring JavaScript Map
semantics. -/

/-- Map.prototype.get: the value stored at key, or undefined. -/
def mapGet : List (JsKey × Value) → JsKey → Value
  | [], _ => .undef
  | p :: rest, k => if p.1 = k then p.2 else mapGet rest k

/-- Map.prototype.set: replace in place when the key exists, otherwise
append at the end, keeping insertion order. -/
def mapSet : List (JsKey × Value) → JsKey → Value → List (JsKey × Value)
  | [], k, v => [(k, v)]
  | p :: rest, k, v => if p.1 = k then (k, v) :: rest else p :: mapSet rest k v

/-- Map.prototype.delete: remove the entry stored at key, if any. -/
def mapDelete : List (JsKey × Value) → JsKey → List (JsKey × Value)
  | [], _ => []
  | p :: rest, k => if p.1 = k then rest else p :: mapDelete rest k

/-- The JavaScript Array.prototype.indexOf: first index of the key, or
-1 when absent. -/
def jsIndexOf : List JsKey → JsKey → Int
  | [], _ => -1
  | x :: rest, k =>
    if x = k then 0
    else
      let i := jsIndexOf rest k
      if i < 0 then -1 else i + 1

/-- The JavaScript Array.prototype.splice(i, 1): remove one element at
index i, where a negative i counts from the end (clamped at 0) and an i
past the end removes nothing. -/
def spliceRemoveOne (l : List JsKey) (i : Int) : List JsKey :=
  let start : Nat := if i < 0 then ((l.length : Int) + i).toNat else min i.toNat l.length
  l.take start ++ l.drop (start + 1)

/-! The remote spreadsheet.  Row 1 (1-based) is the header; the data row
at 0-based position i is remote row i + 2.  The state keeps the data
rows as (column A, column B) pairs, plus the log of remote requests
issued. -/

/-- A remote request issued to the spreadsheet API.  Row numbers in
updateCell are 1-based sheet rows; deleteRows carries the 0-based
startIndex/endIndex of the deleteDimension request, where index 0 is the
header row. -/
inductive RemoteOp where
  | updateCell (row : Int) (payload : Value)
  | appendRow (key : JsKey) (payload : Value)
  | deleteRows (startIndex endIndex : Int)

/-- The state of one store instance: the Cache (inherited Map), the
_keyRowNumbers array (RowIndex), the mirrored remote data rows, and the
log of remote requests issued so far. -/
structure CloudState where
  cache : List (JsKey × Value)
  keyRowNumbers : List JsKey
  sheet : List (JsKey × Value)
  ops : List RemoteOp

/-- Update column B of the data row at 0-based position i. -/
def updateColB : List (JsKey × Value) → Nat → Value → List (JsKey × Value)
  | [], _, _ => []
  | r :: rest, 0, v => (r.1, v) :: rest
  | r :: rest, n + 1, v => r :: updateColB rest n v

/-- Apply a deleteDimension request to the data rows: full-sheet 0-based
rows [s, e) are removed, the header occupying full row 0 (never removed
by any reachable request of this code). -/
def applyDeleteRows (rows : List (JsKey × Value)) (s e : Int) : List (JsKey × Value) :=
  rows.take (s - 1).toNat ++ rows.drop (e - 1).toNat

section SpreadsheetOps

variable (stringify : Value → String)

/-- The cell payload written for a value: objects (including null and
arrays, by the typeof test) are serialized with JSON.stringify, other
values are written raw. -/
def encodeCell (v : Value) : Value :=
  if v.typeofObject then .str (stringify v) else v

/-- The private function _spreadsheetSet: updates cell B(indexOf key + 2)
with the encoded value.  The remoteOk flag tells whether the awaited API
call resolves; on rejection no remote effect happens. -/
def spreadsheetSetR (remoteOk : Bool) (key : JsKey) (value : Value) (s : CloudState) : CloudState :=
  let v := encodeCell stringify value
  let row : Int := jsIndexOf s.keyRowNumbers key + 2
  if remoteOk then
    { s with
      sheet := if 2 ≤ row then updateColB s.sheet (row - 2).toNat v else s.sheet,
      ops := s.ops ++ [RemoteOp.updateCell row v] }
  else s

/-- The private function _spreadsheetAppend: pushes the key onto
_keyRowNumbers first (synchronously), then appends the (key, value) row
remotely.  On rejection of the awaited call the push has already
happened but no row is appended. -/
def spreadsheetAppendR (remoteOk : Bool) (key : JsKey) (value : Value) (s : CloudState) : CloudState :=
  let v := encodeCell stringify value
  let s₁ := { s with keyRowNumbers := s.keyRowNumbers ++ [key] }
  if remoteOk then
    { s₁ with
      sheet := s₁.sheet ++ [(key, v)],
      ops := s₁.ops ++ [RemoteOp.appendRow key v] }
  else s₁

/-- The private function _spreadsheetDelete: splices the key out of
_keyRowNumbers and issues a deleteDimension request for full-sheet rows
[index + 1, index + 2). -/
def spreadsheetDelete (key : JsKey) (s : CloudState) : CloudState :=
  let index := jsIndexOf s.keyRowNumbers key
  { s with
    keyRowNumbers := spliceRemoveOne s.keyRowNumbers index,
    sheet := applyDeleteRows s.sheet (index + 1) (index + 2),
    ops := s.ops ++ [RemoteOp.deleteRows (index + 1) (index + 2)] }

/-- The private function _spreadsheetDeleteAll: one deleteDimension
request for full-sheet rows [1, _keyRowNumbers.length + 1), then resets
_keyRowNumbers. -/
def spreadsheetDeleteAll (s : CloudState) : CloudState :=
  let len := s.keyRowNumbers.length
  { s with
    sheet := applyDeleteRows s.sheet 1 ((len : Int) + 1),
    ops := s.ops ++ [RemoteOp.deleteRows 1 ((len : Int) + 1)],
    keyRowNumbers := [] }

/-- Errors thrown synchronously by the public mutation methods. -/
inductive CloudError where
  | invalidValue
  | invalidOperation
deriving DecidableEq

/-- The value a set call stores in the Cache, from the newValue
computation of Cloud.prototype.set: the lodash deep-set on the current
plain object, a deep-set on a fresh empty object otherwise, or the
value verbatim when no path is given. -/
def Cloud.setNewValue (s : CloudState) (key : JsKey) (path : Option JsPath) (value : Value) : Value :=
  let currentValue := mapGet s.cache key
  match path with
  | some p =>
    if currentValue.isPlainObject then baseSet currentValue p value
    else baseSet (Value.obj []) p value
  | none => value

/-- Cloud.prototype.get(key, path): the cached value; a truthy path is
resolved inside it only when typeof value === 'object'.  A path of none
models an absent or falsy path argument. -/
def Cloud.get (s : CloudState) (key : JsKey) (path : Option JsPath) : Value :=
  let value := mapGet s.cache key
  match path with
  | none => value
  | some p => if value.typeofObject then lodashGet value p else value

/-- Cloud.prototype.ensure(key, path, defaultValue), three-argument
form: the default when the cached value is undefined, the value itself
when it is not an object by the typeof test, and otherwise the lodash
get of the path with the default as fallback. -/
def Cloud.ensure (s : CloudState) (key : JsKey) (path : JsPath) (defaultValue : Value) : Value :=
  let value := mapGet s.cache key
  if value.isUndef then defaultValue
  else if !value.typeofObject then value
  else lodashGetD value path defaultValue

/-- Cloud.prototype.set(key, path, value), with the replication outcome
made explicit: the Bool in the result is true when the awaited remote
call resolved and false when it rejected (the returned promise then
rejects).  The Cache update and, in the append branch, the push onto
_keyRowNumbers happen synchronously before the remote call. -/
def Cloud.setR (remoteOk : Bool) (s : CloudState) (key : JsKey) (path : Option JsPath) (value : Value) :
    Except CloudError (CloudState × Bool) :=
  if value.isUndef then .error .invalidValue
  else
    let currentValue := mapGet s.cache key
    let newValue := Cloud.setNewValue s key path value
    let s₁ := { s with cache := mapSet s.cache key newValue }
    if currentValue.isUndef then .ok (spreadsheetAppendR stringify remoteOk key newValue s₁, remoteOk)
    else .ok (spreadsheetSetR stringify remoteOk key newValue s₁, remoteOk)

/-- Cloud.prototype.set along the successful-replication path. -/
def Cloud.set (s : CloudState) (key : JsKey) (path : Option JsPath) (value : Value) :
    Except CloudError CloudState :=
  (Cloud.setR stringify true s key path value).map Prod.fst

/-- The state reached by the synchronous prefix of Cloud.prototype.set,
at the moment the remote call is first awaited: the Cache is already
updated (and a new key already pushed onto _keyRowNumbers), no remote
effect has happened yet. -/
def Cloud.setSyncState (s : CloudState) (key : JsKey) (path : Option JsPath) (value : Value) :
    Except CloudError CloudState :=
  if value.isUndef then .error .invalidValue
  else
    let currentValue := mapGet s.cache key
    let newValue := Cloud.setNewValue s key path value
    let s₁ := { s with cache := mapSet s.cache key newValue }
    if currentValue.isUndef then .ok { s₁ with keyRowNumbers := s₁.keyRowNumbers ++ [key] }
    else .ok s₁

/-- Cloud.prototype.delete(key, path): no-op when the cached value is
undefined; with a truthy path it requires a plain object and re-invokes
set (two-argument form) with the lodash-unset remainder; without a path
it deletes the Map entry and the remote row. -/
def Cloud.delete (s : CloudState) (key : JsKey) (path : Option JsPath) :
    Except CloudError CloudState :=
  let currentValue := mapGet s.cache key
  if currentValue.isUndef then .ok s
  else if path.isSome && !currentValue.isPlainObject then .error .invalidOperation
  else
    match path with
    | some p => Cloud.set stringify s key none (baseUnset currentValue p)
    | none => .ok (spreadsheetDelete key { s with cache := mapDelete s.cache key })

/-- Cloud.prototype.deleteAll: deletes every Map entry (forEach over the
entries, deleting each key), then issues the single bulk remote
deletion. -/
def Cloud.deleteAll (s : CloudState) : CloudState :=
  spreadsheetDeleteAll
    { s with cache := s.cache.foldl (fun m kv => mapDelete m kv.1) s.cache }

end SpreadsheetOps

/-! Hydration.  The source iterates the fetched grid: for i in
[0, rowCount - 1) it reads rowData[i + 1] (thereby skipping the header
at rowData[0]), takes column A's formattedValue as the Map key, parses
column B's formattedValue with JSON.parse falling back to the raw
string, and pushes/sets; any row whose access throws is skipped by the
surrounding try/catch. -/

/-- One cell of the fetched grid; formattedValue may be absent. -/
structure GridCell where
  formattedValue : Option String

/-- One fetched grid row: none models a missing rowData entry or a row
without a values array (both make the row accesses throw); some cells
models rowData[j].values. -/
abbrev GridRow := Option (List GridCell)

/-- Decode one data row as the loop body does, under a JSON.parse oracle
(parse s = none models a parse that throws).  none means the row threw
and is skipped: the row itself missing, or column A missing (reading its
formattedValue throws), or column B missing (its formattedValue is read
in both the try and the catch branch, so both throw).  A present column
A with an absent formattedValue yields the key undefined; a present
column B with an absent formattedValue makes JSON.parse throw on the
string coercion and the catch store undefined. -/
def hydrateRow (parse : String → Option Value) (r : GridRow) : Option (JsKey × Value) :=
  match r with
  | none => none
  | some cells =>
    match cells.get? 0 with
    | none => none
    | some c0 =>
      let key : JsKey := match c0.formattedValue with
        | some s => .str s
        | none => .undef
      match cells.get? 1 with
      | none => none
      | some c1 =>
        match c1.formattedValue with
        | none => some (key, .undef)
        | some s => some (key, (parse s).getD (.str s))

/-- One iteration of the hydration loop at index i: push the decoded
row's key onto _keyRowNumbers and set it in the Map; a throwing row is
skipped. -/
def fetchStep (parse : String → Option Value) (rowData : List GridRow)
    (st : CloudState) (i : Nat) : CloudState :=
  match hydrateRow parse ((rowData.get? (i + 1)).getD none) with
  | none => st
  | some (k, v) =>
    { st with
      keyRowNumbers := st.keyRowNumbers ++ [k],
      cache := mapSet st.cache k v }

/-- Cloud.prototype.fetchEverything: the hydration loop over the data
rows, in row order. -/
def fetchEverything (parse : String → Option Value) (rowCount : Nat) (rowData : List GridRow)
    (s : CloudState) : CloudState :=
  (List.range (rowCount - 1)).foldl (fetchStep parse rowData) s

/-- The remote data row behind a fetched grid row: column A as the key
(undefined when absent) and column B as its raw text. -/
def sheetRowOf (r : GridRow) : JsKey × Value :=
  match r with
  | none => (.undef, .undef)
  | some cells =>
    (match cells.get? 0 with
      | some c0 => match c0.formattedValue with
        | some s => .str s
        | none => .undef
      | none => .undef,
     match cells.get? 1 with
      | some c1 => match c1.formattedValue with
        | some s => .str s
        | none => .undef
      | none => .undef)

/-- The remote data rows of the fetched grid, one per loop iteration. -/
def gridSheet (rowCount : Nat) (rowData : List GridRow) : List (JsKey × Value) :=
  (List.range (rowCount - 1)).map (fun i => sheetRowOf ((rowData.get? (i + 1)).getD none))

/-- The state of a freshly constructed instance right after hydration:
empty Cache and _keyRowNumbers populated by fetchEverything, the remote
data rows those of the fetched grid, no mutation requests issued yet. -/
def hydrate (parse : String → Option Value) (rowCount : Nat) (rowData : List GridRow) : CloudState :=
  fetchEverything parse rowCount rowData
    { cache := [], keyRowNumbers := [], sheet := gridSheet rowCount rowData, ops := [] }

/-- The decoded rows of the grid, in row order, skipped rows omitted. -/
def decodedRows (parse : String → Option Value) (rowCount : Nat) (rowData : List GridRow) :
    List (JsKey × Value) :=
  (List.range (rowCount - 1)).filterMap
    (fun i => hydrateRow parse ((rowData.get? (i + 1)).getD none))

/-- Well-formed hydration input: every data row of the grid decodes,
the decoded keys are pairwise distinct, and no decoded value is the
JavaScript undefined (column B present and formatted). -/
def WfGrid (parse : String → Option Value) (rowCount : Nat) (rowData : List GridRow) : Prop :=
  (∀ i ∈ List.range (rowCount - 1),
      (hydrateRow parse ((rowData.get? (i + 1)).getD none)).isSome) ∧
  ((decodedRows parse rowCount rowData).map Prod.fst).Nodup ∧
  ∀ p ∈ decodedRows parse rowCount rowData, p.2.isUndef = false

/-- A public mutation call. -/
inductive Action where
  | set (key : JsKey) (path : Option JsPath) (value : Value)
  | del (key : JsKey) (path : Option JsPath)
  | delAll

/-- Run one public mutation; a call that throws leaves the state
unchanged (both throws happen before any mutation). -/
def runAction (stringify : Value → String) (s : CloudState) : Action → CloudState
  | .set k p v =>
    match Cloud.set stringify s k p v with
    | .ok s' => s'
    | .error _ => s
  | .del k p =>
    match Cloud.delete stringify s k p with
    | .ok s' => s'
    | .error _ => s
  | .delAll => Cloud.deleteAll s

/-- Run a sequence of public mutations. -/
def runActions (stringify : Value → String) (s : CloudState) (acts : List Action) : CloudState :=
  acts.foldl (runAction stringify) s

/-! Lemmas about the Map embedding. -/

theorem mapGet_eq_undef {m : List (JsKey × Value)} {k : JsKey}
    (h : k ∉ m.map Prod.fst) : mapGet m k = .undef := by
  induction m with
  | nil => rfl
  | cons p rest ih =>
    simp only [List.map_cons, List.mem_cons] at h
    push_neg at h
    simp only [mapGet]
    rw [if_neg (fun hh => h.1 hh.symm)]
    exact ih h.2

theorem mem_of_mapGet_not_undef {m : List (JsKey × Value)} {k : JsKey}
    (h : (mapGet m k).isUndef = false) : k ∈ m.map Prod.fst := by
  by_contra hk
  rw [mapGet_eq_undef hk] at h
  simp [Value.isUndef] at h

theorem mapGet_not_undef_of_mem {m : List (JsKey × Value)} {k : JsKey}
    (hv : ∀ p ∈ m, p.2.isUndef = false) (h : k ∈ m.map Prod.fst) :
    (mapGet m k).isUndef = false := by
  induction m with
  | nil => simp at h
  | cons p rest ih =>
    simp only [List.map_cons, List.mem_cons] at h
    simp only [mapGet]
    by_cases hk : p.1 = k
    · rw [if_pos hk]
      exact hv p (List.mem_cons_self _ _)
    · rw [if_neg hk]
      rcases h with h | h
      · exact absurd h.symm hk
      · exact ih (fun q hq => hv q (List.mem_cons_of_mem _ hq)) h

theorem mapSet_keys_of_mem {m : List (JsKey × Value)} {k : JsKey} (v : Value)
    (h : k ∈ m.map Prod.fst) : (mapSet m k v).map Prod.fst = m.map Prod.fst := by
  induction m with
  | nil => simp at h
  | cons p rest ih =>
    simp only [List.map_cons, List.mem_cons] at h
    simp only [mapSet]
    by_cases hk : p.1 = k
    · rw [if_pos hk]
      simp [hk]
    · rw [if_neg hk]
      rcases h with h | h
      · exact absurd h.symm hk
      · simp [ih h]

theorem mapSet_of_not_mem {m : List (JsKey × Value)} {k : JsKey} (v : Value)
    (h : k ∉ m.map Prod.fst) : mapSet m k v = m ++ [(k, v)] := by
  induction m with
  | nil => rfl
  | cons p rest ih =>
    simp only [List.map_cons, List.mem_cons] at h
    push_neg at h
    simp only [mapSet]
    rw [if_neg (fun hh => h.1 hh.symm)]
    simp [ih h.2]

theorem mapGet_mapSet_self (m : List (JsKey × Value)) (k : JsKey) (v : Value) :
    mapGet (mapSet m k v) k = v := by
  induction m with
  | nil => simp [mapSet, mapGet]
  | cons p rest ih =>
    simp only [mapSet]
    by_cases hk : p.1 = k
    · rw [if_pos hk]
      simp [mapGet]
    · rw [if_neg hk]
      simp only [mapGet]
      rw [if_neg hk]
      exact ih

theorem mapSet_values {m : List (JsKey × Value)} {k : JsKey} {v : Value}
    (hm : ∀ p ∈ m, p.2.isUndef = false) (hv : v.isUndef = false) :
    ∀ p ∈ mapSet m k v, p.2.isUndef = false := by
  induction m with
  | nil =>
    intro p hp
    simp only [mapSet, List.mem_singleton] at hp
    simp [hp, hv]
  | cons q rest ih =>
    intro p hp
    simp only [mapSet] at hp
    by_cases hk : q.1 = k
    · rw [if_pos hk] at hp
      rcases List.mem_cons.mp hp with h | h
      · simp [h, hv]
      · exact hm p (List.mem_cons_of_mem _ h)
    · rw [if_neg hk] at hp
      rcases List.mem_cons.mp hp with h | h
      · exact hm p (h ▸ List.mem_cons_self _ _)
      · exact ih (fun q' hq' => hm q' (List.mem_cons_of_mem _ hq')) p h

theorem mapDelete_append {m₁ m₂ : List (JsKey × Value)} {k : JsKey} (v : Value)
    (h : k ∉ m₁.map Prod.fst) : mapDelete (m₁ ++ (k, v) :: m₂) k = m₁ ++ m₂ := by
  induction m₁ with
  | nil => simp [mapDelete]
  | cons p rest ih =>
    simp only [List.map_cons, List.mem_cons] at h
    push_neg at h
    simp only [List.cons_append, mapDelete]
    rw [if_neg (fun hh => h.1 hh.symm)]
    simp [ih h.2]

theorem mapDelete_sub {m : List (JsKey × Value)} {k : JsKey} :
    ∀ p ∈ mapDelete m k, p ∈ m := by
  induction m with
  | nil => simp [mapDelete]
  | cons q rest ih =>
    intro p hp
    simp only [mapDelete] at hp
    by_cases hk : q.1 = k
    · rw [if_pos hk] at hp
      exact List.mem_cons_of_mem _ hp
    · rw [if_neg hk] at hp
      rcases List.mem_cons.mp hp with h | h
      · exact h ▸ List.mem_cons_self _ _
      · exact List.mem_cons_of_mem _ (ih p h)

theorem mapGet_mapDelete_self {m : List (JsKey × Value)} {k : JsKey}
    (h : (m.map Prod.fst).Nodup) : mapGet (mapDelete m k) k = .undef := by
  induction m with
  | nil => rfl
  | cons p rest ih =>
    simp only [List.map_cons, List.nodup_cons] at h
    simp only [mapDelete]
    by_cases hk : p.1 = k
    · rw [if_pos hk]
      exact mapGet_eq_undef (hk ▸ h.1)
    · rw [if_neg hk]
      simp only [mapGet]
      rw [if_neg hk]
      exact ih h.2

theorem split_map_fst {m : List (JsKey × Value)} {l₁ l₂ : List JsKey} {k : JsKey}
    (h : m.map Prod.fst = l₁ ++ k :: l₂) :
    ∃ m₁ v m₂, m = m₁ ++ (k, v) :: m₂ ∧ m₁.map Prod.fst = l₁ ∧ m₂.map Prod.fst = l₂ := by
  induction l₁ generalizing m with
  | nil =>
    cases m with
    | nil => simp at h
    | cons q rest =>
      simp only [List.map_cons, List.nil_append, List.cons.injEq] at h
      exact ⟨[], q.2, rest, by simp [← h.1], rfl, h.2⟩
  | cons a l₁ ih =>
    cases m with
    | nil => simp at h
    | cons q rest =>
      simp only [List.map_cons, List.cons_append, List.cons.injEq] at h
      obtain ⟨m₁, v, m₂, hm, h1, h2⟩ := ih h.2
      exact ⟨q :: m₁, v, m₂, by simp [hm], by simp [h1, h.1], h2⟩

/-! Lemmas about indexOf, splice and the sheet operations. -/

theorem jsIndexOf_append_cons {l₁ l₂ : List JsKey} {k : JsKey} (h : k ∉ l₁) :
    jsIndexOf (l₁ ++ k :: l₂) k = (l₁.length : Int) := by
  induction l₁ with
  | nil => simp [jsIndexOf]
  | cons a l₁ ih =>
    simp only [List.mem_cons] at h
    push_neg at h
    simp only [List.cons_append, jsIndexOf, List.append_eq]
    rw [if_neg (fun hh => h.1 hh.symm), ih h.2]
    rw [if_neg (by omega : ¬ ((l₁.length : Int) < 0))]
    simp only [List.length_cons]
    push_cast
    ring

theorem spliceRemoveOne_at (l₁ l₂ : List JsKey) (k : JsKey) :
    spliceRemoveOne (l₁ ++ k :: l₂) (l₁.length : Int) = l₁ ++ l₂ := by
  simp only [spliceRemoveOne]
  rw [if_neg (by omega : ¬ ((l₁.length : Int) < 0))]
  have h1 : (l₁.length : Int).toNat = l₁.length := Int.toNat_ofNat _
  have h2 : min l₁.length (l₁ ++ k :: l₂).length = l₁.length := by
    simp only [List.length_append, List.length_cons]
    omega
  rw [h1, h2]
  congr 1
  · exact List.take_left l₁ (k :: l₂)
  · have : l₁.length + 1 = (l₁ ++ [k]).length := by simp
    rw [this]
    have : l₁ ++ k :: l₂ = (l₁ ++ [k]) ++ l₂ := by simp
    rw [this]
    exact List.drop_left _ _

theorem updateColB_map_fst (rows : List (JsKey × Value)) (i : Nat) (v : Value) :
    (updateColB rows i v).map Prod.fst = rows.map Prod.fst := by
  induction rows generalizing i with
  | nil => rfl
  | cons r rest ih =>
    cases i with
    | zero => simp [updateColB]
    | succ n => simp [updateColB, ih]

theorem applyDeleteRows_at (rows : List (JsKey × Value)) (i : Nat) :
    applyDeleteRows rows ((i : Int) + 1) ((i : Int) + 2) = rows.take i ++ rows.drop (i + 1) := by
  simp only [applyDeleteRows]
  have h1 : ((i : Int) + 1 - 1).toNat = i := by omega
  have h2 : ((i : Int) + 2 - 1).toNat = i + 1 := by omega
  rw [h1, h2]

theorem applyDeleteRows_all (rows : List (JsKey × Value)) (n : Nat) :
    applyDeleteRows rows 1 ((n : Int) + 1) = rows.drop n := by
  simp only [applyDeleteRows]
  have h1 : ((1 : Int) - 1).toNat = 0 := rfl
  have h2 : ((n : Int) + 1 - 1).toNat = n := by omega
  rw [h1, h2]
  simp

/-! Lemmas about the value operations. -/

theorem baseSet_obj_isPlain (fields : List (String × Value)) (p : JsPath) (v : Value) :
    (baseSet (Value.obj fields) p v).isPlainObject = true := by
  match p with
  | [] => rfl
  | [k] => simp [baseSet, setProp, Value.isPlainObject]
  | k :: k' :: rest => simp [baseSet, setProp, Value.isPlainObject]

theorem baseUnset_obj_isPlain (fields : List (String × Value)) (p : JsPath) :
    (baseUnset (Value.obj fields) p).isPlainObject = true := by
  match p with
  | [] => simp [baseUnset, deleteProp, Value.isPlainObject]
  | [k] => simp [baseUnset, deleteProp, Value.isPlainObject]
  | k :: k' :: rest => simp [baseUnset, Value.isPlainObject]

theorem isPlainObject_obj {v : Value} (h : v.isPlainObject = true) :
    ∃ fields, v = .obj fields := by
  cases v with
  | obj fields => exact ⟨fields, rfl⟩
  | _ => simp [Value.isPlainObject] at h

theorem setNewValue_not_undef (s : CloudState) (key : JsKey) (path : Option JsPath) {value : Value}
    (hv : value.isUndef = false) : (Cloud.setNewValue s key path value).isUndef = false := by
  cases path with
  | none => exact hv
  | some p =>
    simp only [Cloud.setNewValue]
    by_cases hc : (mapGet s.cache key).isPlainObject = true
    · rw [if_pos hc]
      obtain ⟨fields, hf⟩ := isPlainObject_obj hc
      rw [hf]
      have := baseSet_obj_isPlain fields p value
      obtain ⟨g, hg⟩ := isPlainObject_obj this
      simp [hg, Value.isUndef]
    · rw [if_neg hc]
      have := baseSet_obj_isPlain [] p value
      obtain ⟨g, hg⟩ := isPlainObject_obj this
      simp [hg, Value.isUndef]

theorem getProp_undef (k : String) : getProp .undef k = .undef := rfl

theorem getPath_undef (p : JsPath) : getPath .undef p = .undef := by
  induction p with
  | nil => rfl
  | cons k rest ih => simp [getPath, getProp_undef, ih]

theorem lodashGet_null (p : JsPath) : lodashGet .null p = .undef := by
  cases p with
  | nil => rfl
  | cons k rest =>
    simp only [lodashGet, getPath]
    have : getProp .null k = .undef := rfl
    rw [this, getPath_undef]

/-! The synchronization invariant: Cache, _keyRowNumbers and the remote
data rows list the same keys in the same order, keys are unique, and no
cached value is the JavaScript undefined. -/

/-- Well-formed store state. -/
def Wf (s : CloudState) : Prop :=
  s.cache.map Prod.fst = s.keyRowNumbers ∧
  s.sheet.map Prod.fst = s.keyRowNumbers ∧
  s.keyRowNumbers.Nodup ∧
  ∀ p ∈ s.cache, p.2.isUndef = false

/-! Characterizations of the mutation methods. -/

theorem setR_present (stringify : Value → String) (b : Bool) {s : CloudState} {key : JsKey}
    (path : Option JsPath) {value : Value}
    (hcur : (mapGet s.cache key).isUndef = false) (hv : value.isUndef = false) :
    Cloud.setR stringify b s key path value =
      .ok (spreadsheetSetR stringify b key (Cloud.setNewValue s key path value)
            { s with cache := mapSet s.cache key (Cloud.setNewValue s key path value) }, b) := by
  simp [Cloud.setR, hv, hcur]

theorem setR_absent (stringify : Value → String) (b : Bool) {s : CloudState} {key : JsKey}
    (path : Option JsPath) {value : Value}
    (hcur : (mapGet s.cache key).isUndef = true) (hv : value.isUndef = false) :
    Cloud.setR stringify b s key path value =
      .ok (spreadsheetAppendR stringify b key (Cloud.setNewValue s key path value)
            { s with cache := mapSet s.cache key (Cloud.setNewValue s key path value) }, b) := by
  simp [Cloud.setR, hv, hcur]

theorem set_present (stringify : Value → String) {s : CloudState} {key : JsKey}
    (path : Option JsPath) {value : Value}
    (hcur : (mapGet s.cache key).isUndef = false) (hv : value.isUndef = false) :
    Cloud.set stringify s key path value =
      .ok (spreadsheetSetR stringify true key (Cloud.setNewValue s key path value)
            { s with cache := mapSet s.cache key (Cloud.setNewValue s key path value) }) := by
  simp [Cloud.set, setR_present stringify true path hcur hv, Except.map]

theorem set_absent (stringify : Value → String) {s : CloudState} {key : JsKey}
    (path : Option JsPath) {value : Value}
    (hcur : (mapGet s.cache key).isUndef = true) (hv : value.isUndef = false) :
    Cloud.set stringify s key path value =
      .ok (spreadsheetAppendR stringify true key (Cloud.setNewValue s key path value)
            { s with cache := mapSet s.cache key (Cloud.setNewValue s key path value) }) := by
  simp [Cloud.set, setR_absent stringify true path hcur hv, Except.map]

theorem set_undef_value (stringify : Value → String) (s : CloudState) (key : JsKey)
    (path : Option JsPath) :
    Cloud.set stringify s key path .undef = .error .invalidValue := rfl

/-- Nodup transfer through a middle split. -/
theorem nodup_middle_parts {α : Type} {l₁ l₂ : List α} {k : α}
    (h : (l₁ ++ k :: l₂).Nodup) : k ∉ l₁ ∧ k ∉ l₂ ∧ (l₁ ++ l₂).Nodup := by
  rw [List.nodup_append] at h
  obtain ⟨h1, h2, h3⟩ := h
  rw [List.nodup_cons] at h2
  refine ⟨fun hk => h3 hk (List.mem_cons_self _ _), h2.1, ?_⟩
  rw [List.nodup_append]
  exact ⟨h1, h2.2, fun a ha hb => h3 ha (List.mem_cons_of_mem _ hb)⟩

/-- Take and drop around a middle element. -/
theorem take_middle {α : Type} (l₁ : List α) (x : α) (l₂ : List α) :
    (l₁ ++ x :: l₂).take l₁.length = l₁ :=
  List.take_left l₁ (x :: l₂)

theorem drop_middle {α : Type} (l₁ : List α) (x : α) (l₂ : List α) :
    (l₁ ++ x :: l₂).drop (l₁.length + 1) = l₂ := by
  have h1 : l₁.length + 1 = (l₁ ++ [x]).length := by simp
  have h2 : l₁ ++ x :: l₂ = (l₁ ++ [x]) ++ l₂ := by simp
  rw [h1, h2]
  exact List.drop_left _ _

/-- Characterization of delete without a path on a well-formed state
whose key sits at position i of _keyRowNumbers. -/
theorem delete_nopath_spec (stringify : Value → String) {s : CloudState} {key : JsKey}
    {l₁ l₂ : List JsKey}
    (hwf : Wf s) (hsplit : s.keyRowNumbers = l₁ ++ key :: l₂) :
    ∃ s', Cloud.delete stringify s key none = .ok s' ∧
      s'.keyRowNumbers = l₁ ++ l₂ ∧
      s'.cache = mapDelete s.cache key ∧
      (s'.cache.map Prod.fst) = l₁ ++ l₂ ∧
      s'.sheet = s.sheet.take l₁.length ++ s.sheet.drop (l₁.length + 1) ∧
      (s'.sheet.map Prod.fst) = l₁ ++ l₂ ∧
      s'.ops = s.ops ++ [RemoteOp.deleteRows ((l₁.length : Int) + 1) ((l₁.length : Int) + 2)] := by
  obtain ⟨hck, hsk, hnd, hval⟩ := hwf
  have hnd' := hsplit ▸ hnd
  obtain ⟨hkl₁, hkl₂, hndrest⟩ := nodup_middle_parts hnd'
  have hmem : key ∈ s.cache.map Prod.fst := by
    rw [hck, hsplit]
    simp
  have hcur : (mapGet s.cache key).isUndef = false := mapGet_not_undef_of_mem hval hmem
  obtain ⟨m₁, v, m₂, hm, hm1, hm2⟩ := split_map_fst (m := s.cache) (by rw [hck, hsplit])
  obtain ⟨sh₁, w, sh₂, hsh, hsh1, hsh2⟩ := split_map_fst (m := s.sheet) (by rw [hsk, hsplit])
  have hidx : jsIndexOf s.keyRowNumbers key = (l₁.length : Int) := by
    rw [hsplit]
    exact jsIndexOf_append_cons hkl₁
  have hlen : sh₁.length = l₁.length := by
    rw [← hsh1]
    simp
  have hnotm : key ∉ m₁.map Prod.fst := by
    rw [hm1]
    exact hkl₁
  refine ⟨spreadsheetDelete key { s with cache := mapDelete s.cache key }, ?_, ?_, ?_, ?_, ?_, ?_, ?_⟩
  · simp [Cloud.delete, hcur]
  · simp only [spreadsheetDelete, hidx]
    rw [hsplit]
    exact spliceRemoveOne_at l₁ l₂ key
  · rfl
  · simp only [spreadsheetDelete]
    rw [hm, mapDelete_append v hnotm]
    simp [hm1, hm2]
  · simp only [spreadsheetDelete, hidx]
    exact applyDeleteRows_at s.sheet l₁.length
  · simp only [spreadsheetDelete, hidx]
    rw [applyDeleteRows_at, hsh, ← hlen, take_middle, drop_middle]
    simp [hsh1, hsh2]
  · simp only [spreadsheetDelete, hidx]

theorem isUndef_eq {v : Value} (h : v.isUndef = true) : v = .undef := by
  cases v with
  | undef => rfl
  | _ => simp [Value.isUndef] at h

/-! Preservation of the invariant by the mutation methods. -/

theorem spreadsheetAppendR_true (stringify : Value → String) (key : JsKey) (v : Value)
    (s : CloudState) :
    spreadsheetAppendR stringify true key v s =
      { s with
        keyRowNumbers := s.keyRowNumbers ++ [key],
        sheet := s.sheet ++ [(key, encodeCell stringify v)],
        ops := s.ops ++ [RemoteOp.appendRow key (encodeCell stringify v)] } := by
  simp [spreadsheetAppendR]

theorem spreadsheetSetR_true (stringify : Value → String) (key : JsKey) (v : Value)
    (s : CloudState) :
    spreadsheetSetR stringify true key v s =
      { s with
        sheet := if 2 ≤ jsIndexOf s.keyRowNumbers key + 2 then
            updateColB s.sheet (jsIndexOf s.keyRowNumbers key + 2 - 2).toNat
              (encodeCell stringify v)
          else s.sheet,
        ops := s.ops ++ [RemoteOp.updateCell (jsIndexOf s.keyRowNumbers key + 2)
          (encodeCell stringify v)] } := by
  simp [spreadsheetSetR]

theorem Wf_set (stringify : Value → String) {s s' : CloudState} {key : JsKey}
    {path : Option JsPath} {value : Value}
    (hwf : Wf s) (h : Cloud.set stringify s key path value = .ok s') : Wf s' := by
  obtain ⟨hck, hsk, hnd, hval⟩ := hwf
  by_cases hv : value.isUndef = true
  · rw [isUndef_eq hv, set_undef_value] at h
    exact absurd h (by simp)
  · rw [Bool.not_eq_true] at hv
    have hnu : (Cloud.setNewValue s key path value).isUndef = false :=
      setNewValue_not_undef s key path hv
    by_cases hcur : (mapGet s.cache key).isUndef = true
    · have hnotmem : key ∉ s.cache.map Prod.fst := by
        intro hmem
        rw [mapGet_not_undef_of_mem hval hmem] at hcur
        exact absurd hcur (by simp)
      rw [set_absent stringify path hcur hv] at h
      simp only [Except.ok.injEq] at h
      subst h
      rw [spreadsheetAppendR_true]
      refine ⟨?_, ?_, ?_, ?_⟩
      · show (mapSet s.cache key (Cloud.setNewValue s key path value)).map Prod.fst
          = s.keyRowNumbers ++ [key]
        rw [mapSet_of_not_mem _ hnotmem]
        simp [hck]
      · simp [hsk]
      · show (s.keyRowNumbers ++ [key]).Nodup
        rw [List.nodup_append]
        refine ⟨hnd, List.nodup_singleton _, ?_⟩
        intro a ha hb
        rw [List.mem_singleton] at hb
        subst hb
        exact hnotmem (hck ▸ ha)
      · exact mapSet_values hval hnu
    · rw [Bool.not_eq_true] at hcur
      have hmem : key ∈ s.cache.map Prod.fst := mem_of_mapGet_not_undef hcur
      rw [set_present stringify path hcur hv] at h
      simp only [Except.ok.injEq] at h
      subst h
      rw [spreadsheetSetR_true]
      refine ⟨?_, ?_, hnd, ?_⟩
      · show (mapSet s.cache key (Cloud.setNewValue s key path value)).map Prod.fst
          = s.keyRowNumbers
        rw [mapSet_keys_of_mem _ hmem]
        exact hck
      · show (if 2 ≤ jsIndexOf s.keyRowNumbers key + 2 then
            updateColB s.sheet (jsIndexOf s.keyRowNumbers key + 2 - 2).toNat
              (encodeCell stringify (Cloud.setNewValue s key path value))
          else s.sheet).map Prod.fst = s.keyRowNumbers
        by_cases hr : 2 ≤ jsIndexOf s.keyRowNumbers key + 2
        · rw [if_pos hr, updateColB_map_fst]
          exact hsk
        · rw [if_neg hr]
          exact hsk
      · exact mapSet_values hval hnu

theorem Wf_delete (stringify : Value → String) {s s' : CloudState} {key : JsKey}
    {path : Option JsPath}
    (hwf : Wf s) (h : Cloud.delete stringify s key path = .ok s') : Wf s' := by
  by_cases hcur : (mapGet s.cache key).isUndef = true
  · simp [Cloud.delete, hcur] at h
    subst h
    exact hwf
  · rw [Bool.not_eq_true] at hcur
    cases path with
    | some p =>
      by_cases hpl : (mapGet s.cache key).isPlainObject = true
      · simp only [Cloud.delete, hcur, hpl] at h
        simp only [Bool.not_true, Bool.and_false, Bool.false_eq_true, if_false,
          Option.isSome_some, Bool.and_true] at h
        exact Wf_set stringify hwf h
      · simp only [Cloud.delete, hcur, hpl] at h
        simp at h
    | none =>
      have hmem : key ∈ s.keyRowNumbers := by
        rw [← hwf.1]
        exact mem_of_mapGet_not_undef hcur
      obtain ⟨l₁, l₂, hsplit⟩ := List.append_of_mem hmem
      obtain ⟨s'', hdel, hkrn, hcache, hckeys, hsheet, hskeys, hops⟩ :=
        delete_nopath_spec stringify hwf hsplit
      rw [hdel] at h
      simp only [Except.ok.injEq] at h
      subst h
      have hnd' := hsplit ▸ hwf.2.2.1
      obtain ⟨_, _, hndrest⟩ := nodup_middle_parts hnd'
      refine ⟨?_, ?_, ?_, ?_⟩
      · rw [hckeys, hkrn]
      · rw [hskeys, hkrn]
      · rw [hkrn]
        exact hndrest
      · intro p hp
        rw [hcache] at hp
        exact hwf.2.2.2 p (mapDelete_sub p hp)

theorem foldl_mapDelete_self (m : List (JsKey × Value)) :
    m.foldl (fun acc kv => mapDelete acc kv.1) m = [] := by
  induction m with
  | nil => rfl
  | cons p t ih =>
    have hstep : mapDelete (p :: t) p.1 = t := by
      simp [mapDelete]
    calc (p :: t).foldl (fun acc kv => mapDelete acc kv.1) (p :: t)
        = t.foldl (fun acc kv => mapDelete acc kv.1) (mapDelete (p :: t) p.1) := rfl
      _ = t.foldl (fun acc kv => mapDelete acc kv.1) t := by rw [hstep]
      _ = [] := ih

theorem deleteAll_spec (s : CloudState) :
    (Cloud.deleteAll s).cache = [] ∧
    (Cloud.deleteAll s).keyRowNumbers = [] ∧
    (Cloud.deleteAll s).sheet = s.sheet.drop s.keyRowNumbers.length ∧
    (Cloud.deleteAll s).ops = s.ops ++ [RemoteOp.deleteRows 1 ((s.keyRowNumbers.length : Int) + 1)] := by
  refine ⟨?_, rfl, ?_, rfl⟩
  · simp only [Cloud.deleteAll, spreadsheetDeleteAll]
    exact foldl_mapDelete_self s.cache
  · simp only [Cloud.deleteAll, spreadsheetDeleteAll]
    exact applyDeleteRows_all s.sheet s.keyRowNumbers.length

theorem Wf_deleteAll {s : CloudState} (hwf : Wf s) : Wf (Cloud.deleteAll s) := by
  obtain ⟨hc, hk, hs, ho⟩ := deleteAll_spec s
  have hlen : s.sheet.length = s.keyRowNumbers.length := by
    rw [← hwf.2.1]
    simp
  refine ⟨?_, ?_, ?_, ?_⟩
  · rw [hc, hk]
    rfl
  · rw [hs, hk, ← hlen, List.drop_length]
    rfl
  · rw [hk]
    exact List.nodup_nil
  · intro p hp
    rw [hc] at hp
    simp at hp

theorem Wf_runAction (stringify : Value → String) {s : CloudState} (a : Action)
    (hwf : Wf s) : Wf (runAction stringify s a) := by
  cases a with
  | set k p v =>
    simp only [runAction]
    cases hset : Cloud.set stringify s k p v with
    | ok s' => exact Wf_set stringify hwf hset
    | error e => exact hwf
  | del k p =>
    simp only [runAction]
    cases hdel : Cloud.delete stringify s k p with
    | ok s' => exact Wf_delete stringify hwf hdel
    | error e => exact hwf
  | delAll => exact Wf_deleteAll hwf

theorem Wf_runActions (stringify : Value → String) {s : CloudState} (acts : List Action)
    (hwf : Wf s) : Wf (runActions stringify s acts) := by
  induction acts generalizing s with
  | nil => exact hwf
  | cons a rest ih => exact ih (Wf_runAction stringify a hwf)

/-! Characterization of hydration. -/

theorem fetch_foldl (parse : String → Option Value) (rowData : List GridRow)
    (idxs : List Nat) (st : CloudState) :
    ((idxs.foldl (fetchStep parse rowData) st).keyRowNumbers
        = st.keyRowNumbers ++
          ((idxs.filterMap (fun i => hydrateRow parse ((rowData.get? (i + 1)).getD none))).map
            Prod.fst)) ∧
    ((idxs.foldl (fetchStep parse rowData) st).cache
        = (idxs.filterMap (fun i => hydrateRow parse ((rowData.get? (i + 1)).getD none))).foldl
            (fun m p => mapSet m p.1 p.2) st.cache) ∧
    ((idxs.foldl (fetchStep parse rowData) st).sheet = st.sheet) ∧
    ((idxs.foldl (fetchStep parse rowData) st).ops = st.ops) := by
  induction idxs generalizing st with
  | nil => simp
  | cons i t ih =>
    cases hdec : hydrateRow parse ((rowData.get? (i + 1)).getD none) with
    | none =>
      have hstep : fetchStep parse rowData st i = st := by
        unfold fetchStep
        rw [hdec]
      simp only [List.foldl_cons, List.filterMap_cons, hdec, hstep]
      exact ih st
    | some kv =>
      obtain ⟨k0, v0⟩ := kv
      have hstep : fetchStep parse rowData st i =
          { st with
            keyRowNumbers := st.keyRowNumbers ++ [k0],
            cache := mapSet st.cache k0 v0 } := by
        unfold fetchStep
        rw [hdec]
      simp only [List.foldl_cons, List.filterMap_cons, hdec, hstep]
      obtain ⟨h1, h2, h3, h4⟩ := ih
        { st with keyRowNumbers := st.keyRowNumbers ++ [k0],
                  cache := mapSet st.cache k0 v0 }
      refine ⟨?_, ?_, h3, h4⟩
      · rw [h1]
        simp
      · rw [h2]

theorem foldl_mapSet_fresh (l acc : List (JsKey × Value))
    (hnd : (l.map Prod.fst).Nodup)
    (hdis : ∀ k ∈ l.map Prod.fst, k ∉ acc.map Prod.fst) :
    l.foldl (fun m p => mapSet m p.1 p.2) acc = acc ++ l := by
  induction l generalizing acc with
  | nil => simp
  | cons p t ih =>
    simp only [List.map_cons, List.nodup_cons] at hnd
    have hp : p.1 ∉ acc.map Prod.fst := hdis p.1 (by simp)
    simp only [List.foldl_cons]
    rw [mapSet_of_not_mem _ hp]
    rw [ih (acc ++ [p]) hnd.2 ?_]
    · simp
    · intro k hk
      simp only [List.map_append, List.mem_append, List.map_cons, List.map_nil,
        List.mem_singleton, not_or]
      refine ⟨hdis k (by simp [hk]), ?_⟩
      intro hkp
      exact hnd.1 (hkp ▸ hk)

theorem sheetRowOf_fst {parse : String → Option Value} {r : GridRow} {k : JsKey} {v : Value}
    (h : hydrateRow parse r = some (k, v)) : (sheetRowOf r).1 = k := by
  cases r with
  | none => simp [hydrateRow] at h
  | some cells =>
    cases h0 : cells[0]? with
    | none => simp [hydrateRow, h0] at h
    | some c0 =>
      cases h1 : cells[1]? with
      | none => simp [hydrateRow, h0, h1] at h
      | some c1 =>
        cases hf0 : c0.formattedValue with
        | none =>
          cases hf : c1.formattedValue with
          | none =>
            simp only [hydrateRow, List.get?_eq_getElem?, h0, h1, hf0, hf,
              Option.some.injEq, Prod.mk.injEq] at h
            simp only [sheetRowOf, List.get?_eq_getElem?, h0, hf0]
            exact h.1
          | some str =>
            simp only [hydrateRow, List.get?_eq_getElem?, h0, h1, hf0, hf,
              Option.some.injEq, Prod.mk.injEq] at h
            simp only [sheetRowOf, List.get?_eq_getElem?, h0, hf0]
            exact h.1
        | some s0 =>
          cases hf : c1.formattedValue with
          | none =>
            simp only [hydrateRow, List.get?_eq_getElem?, h0, h1, hf0, hf,
              Option.some.injEq, Prod.mk.injEq] at h
            simp only [sheetRowOf, List.get?_eq_getElem?, h0, hf0]
            exact h.1
          | some str =>
            simp only [hydrateRow, List.get?_eq_getElem?, h0, h1, hf0, hf,
              Option.some.injEq, Prod.mk.injEq] at h
            simp only [sheetRowOf, List.get?_eq_getElem?, h0, hf0]
            exact h.1

theorem hydrate_spec (parse : String → Option Value) (rowCount : Nat) (rowData : List GridRow) :
    (hydrate parse rowCount rowData).keyRowNumbers
        = (decodedRows parse rowCount rowData).map Prod.fst ∧
    (hydrate parse rowCount rowData).cache
        = (decodedRows parse rowCount rowData).foldl (fun m p => mapSet m p.1 p.2) [] ∧
    (hydrate parse rowCount rowData).sheet = gridSheet rowCount rowData ∧
    (hydrate parse rowCount rowData).ops = [] := by
  obtain ⟨h1, h2, h3, h4⟩ := fetch_foldl parse rowData (List.range (rowCount - 1))
    { cache := [], keyRowNumbers := [], sheet := gridSheet rowCount rowData, ops := [] }
  refine ⟨?_, ?_, ?_, ?_⟩
  · simpa [hydrate, fetchEverything, decodedRows] using h1
  · simpa [hydrate, fetchEverything, decodedRows] using h2
  · simpa [hydrate, fetchEverything] using h3
  · simpa [hydrate, fetchEverything] using h4

theorem gridSheet_fst_of_decode (parse : String → Option Value) (rowData : List GridRow)
    (idxs : List Nat)
    (hall : ∀ i ∈ idxs, (hydrateRow parse ((rowData.get? (i + 1)).getD none)).isSome) :
    ((idxs.map (fun i => sheetRowOf ((rowData.get? (i + 1)).getD none))).map Prod.fst)
      = ((idxs.filterMap (fun i => hydrateRow parse ((rowData.get? (i + 1)).getD none))).map
          Prod.fst) := by
  induction idxs with
  | nil => rfl
  | cons i t ih =>
    have hi := hall i (by simp)
    obtain ⟨kv, hkv⟩ := Option.isSome_iff_exists.mp hi
    obtain ⟨k0, v0⟩ := kv
    simp only [List.map_cons, List.filterMap_cons, hkv]
    rw [sheetRowOf_fst hkv, ih (fun j hj => hall j (by simp [hj]))]

theorem getElem?_split {α : Type} {l : List α} {i : Nat} {a : α} (h : l[i]? = some a) :
    l = l.take i ++ a :: l.drop (i + 1) := by
  obtain ⟨hlt, he⟩ := List.getElem?_eq_some.mp h
  conv_lhs => rw [← List.take_append_drop i l]
  rw [List.drop_eq_getElem_cons hlt, he]

theorem length_take_of_lt {α : Type} {l : List α} {i : Nat} (h : i < l.length) :
    (l.take i).length = i := by
  simp only [List.length_take]
  omega

/-- A set call on a key sitting at position i of _keyRowNumbers of a
well-formed state: the remote update targets exactly cell B(i + 2), the
data row at position i. -/
theorem set_at_index (stringify : Value → String) {s : CloudState} {key : JsKey} {i : Nat}
    (hwf : Wf s) (hget : s.keyRowNumbers[i]? = some key)
    (p : Option JsPath) {v : Value} (hv : v.isUndef = false) :
    ∃ s', Cloud.set stringify s key p v = .ok s' ∧
      s'.ops = s.ops ++ [RemoteOp.updateCell ((i : Int) + 2)
        (encodeCell stringify (Cloud.setNewValue s key p v))] ∧
      s'.keyRowNumbers = s.keyRowNumbers ∧
      s'.cache = mapSet s.cache key (Cloud.setNewValue s key p v) ∧
      s'.sheet = updateColB s.sheet i (encodeCell stringify (Cloud.setNewValue s key p v)) := by
  obtain ⟨hlt, he⟩ := List.getElem?_eq_some.mp hget
  have hmemk : key ∈ s.keyRowNumbers := he ▸ List.getElem_mem hlt
  have hmem : key ∈ s.cache.map Prod.fst := by
    rw [hwf.1]
    exact hmemk
  have hcur : (mapGet s.cache key).isUndef = false :=
    mapGet_not_undef_of_mem hwf.2.2.2 hmem
  have hsplit := getElem?_split hget
  have hnotin : key ∉ s.keyRowNumbers.take i :=
    (nodup_middle_parts (hsplit ▸ hwf.2.2.1)).1
  have hidx : jsIndexOf s.keyRowNumbers key = (i : Int) := by
    conv_lhs => rw [hsplit]
    rw [jsIndexOf_append_cons hnotin, length_take_of_lt hlt]
  rw [set_present stringify p hcur hv, spreadsheetSetR_true]
  refine ⟨_, rfl, ?_, rfl, rfl, ?_⟩
  · simp only [hidx]
  · simp only [hidx]
    rw [if_pos (by omega), show ((i : Int) + 2 - 2).toNat = i by omega]

/-- A delete call without a path on a key sitting at position i of
_keyRowNumbers of a well-formed state: the key leaves Cache and
_keyRowNumbers, exactly the data row at position i is removed, and every
later key shifts one position down. -/
theorem delete_at_index (stringify : Value → String) {s : CloudState} {key : JsKey} {i : Nat}
    (hwf : Wf s) (hget : s.keyRowNumbers[i]? = some key) :
    ∃ s', Cloud.delete stringify s key none = .ok s' ∧
      s'.keyRowNumbers = s.keyRowNumbers.take i ++ s.keyRowNumbers.drop (i + 1) ∧
      s'.cache = mapDelete s.cache key ∧
      s'.sheet = s.sheet.take i ++ s.sheet.drop (i + 1) ∧
      s'.ops = s.ops ++ [RemoteOp.deleteRows ((i : Int) + 1) ((i : Int) + 2)] ∧
      Wf s' := by
  obtain ⟨hlt, he⟩ := List.getElem?_eq_some.mp hget
  have hsplit := getElem?_split hget
  obtain ⟨s', hdel, hkrn, hcache, hckeys, hsheet, hskeys, hops⟩ :=
    delete_nopath_spec stringify hwf hsplit
  have hlen : (s.keyRowNumbers.take i).length = i := length_take_of_lt hlt
  have hwf' : Wf s' := Wf_delete stringify hwf hdel
  refine ⟨s', hdel, ?_, hcache, ?_, ?_, hwf'⟩
  · rw [hkrn]
  · rw [hsheet, hlen]
  · rw [hops, hlen]

theorem Wf_hydrate {parse : String → Option Value} {rowCount : Nat} {rowData : List GridRow}
    (hg : WfGrid parse rowCount rowData) : Wf (hydrate parse rowCount rowData) := by
  obtain ⟨hall, hnd, hval⟩ := hg
  obtain ⟨h1, h2, h3, h4⟩ := hydrate_spec parse rowCount rowData
  have hcache : (hydrate parse rowCount rowData).cache = decodedRows parse rowCount rowData := by
    rw [h2, foldl_mapSet_fresh _ [] hnd (by simp)]
    simp
  refine ⟨?_, ?_, ?_, ?_⟩
  · rw [hcache, h1]
  · rw [h3, h1]
    simp only [gridSheet, decodedRows]
    exact gridSheet_fst_of_decode parse rowData _ hall
  · rw [h1]
    exact hnd
  · intro p hp
    rw [hcache] at hp
    exact hval p hp

/-- The Cache entry written by a successful set call, in terms of the
stored value, together with what a get without a path reads back. -/
theorem set_cache_get (stringify : Value → String) {s : CloudState} {key : JsKey}
    (path : Option JsPath) {v : Value} (hv : v.isUndef = false) :
    ∃ s', Cloud.set stringify s key path v = .ok s' ∧
      s'.cache = mapSet s.cache key (Cloud.setNewValue s key path v) ∧
      mapGet s'.cache key = Cloud.setNewValue s key path v ∧
      Cloud.get s' key none = Cloud.setNewValue s key path v := by
  by_cases hcur : (mapGet s.cache key).isUndef = true
  · rw [set_absent stringify path hcur hv, spreadsheetAppendR_true]
    exact ⟨_, rfl, rfl, mapGet_mapSet_self _ _ _, mapGet_mapSet_self _ _ _⟩
  · rw [Bool.not_eq_true] at hcur
    rw [set_present stringify path hcur hv, spreadsheetSetR_true]
    exact ⟨_, rfl, rfl, mapGet_mapSet_self _ _ _, mapGet_mapSet_self _ _ _⟩

/-! Concrete fixtures used by the witnesses. -/

/-- A concrete serializer standing in for JSON.stringify. -/
def stringifyFix : Value → String := fun _ => "serialized"

/-- A concrete parse oracle standing in for JSON.parse: the cell text 1
parses to the number 1, everything else throws. -/
def parseFix : String → Option Value := fun str =>
  if str = "1" then some (Value.num 1) else none

/-- A concrete fetched grid: a header row and two data rows, (a, 1) and
(b, bv). -/
def rowsFix : List GridRow :=
  [some [{ formattedValue := some "HK" }, { formattedValue := some "HV" }],
   some [{ formattedValue := some "a" }, { formattedValue := some "1" }],
   some [{ formattedValue := some "b" }, { formattedValue := some "bv" }]]

/-- A concrete store state with a nested key k, a scalar key sc and a
key nl holding null. -/
def fixState : CloudState :=
  { cache := [(JsKey.str "k", Value.obj [("a", Value.num 1)]),
              (JsKey.str "sc", Value.num 3),
              (JsKey.str "nl", Value.null)],
    keyRowNumbers := [JsKey.str "k", JsKey.str "sc", JsKey.str "nl"],
    sheet := [(JsKey.str "k", Value.str "sk"), (JsKey.str "sc", Value.num 3),
              (JsKey.str "nl", Value.str "null")],
    ops := [] }

/-! The claims. -/

/-- C5 counterexample: the claim says ensure(key, path?, default)
returns default exactly when the key is absent from Cache, but on a
state whose key k is present with the nested value (a : 1), the call
ensure(k, b, 99) returns the default 99 even though k is present:
the lodash get falls back to the default whenever the path lookup is
undefined, key presence notwithstanding. -/
theorem C5_ensure_counterexample :
    (mapGet fixState.cache (JsKey.str "k")).isUndef = false ∧
    Cloud.ensure fixState (JsKey.str "k") ["b"] (Value.num 99) = Value.num 99 :=
  ⟨rfl, rfl⟩

/-- C5 (amended): ensure(key, path, default) returns default whenever
the key is absent from Cache; when the key is present and its value is
a scalar (not an object by the typeof test), the stored scalar is
returned even though a path and a default were supplied; when the key
is present and its value is an object, the path resolution of the
stored value is returned with default as the fallback, so the default
can also be returned for a present key whose path lookup misses. -/
theorem C5_ensure_amended (s : CloudState) (key : JsKey) (p : JsPath) (d : Value) :
    ((mapGet s.cache key).isUndef = true → Cloud.ensure s key p d = d) ∧
    ((mapGet s.cache key).isUndef = false → (mapGet s.cache key).typeofObject = false →
      Cloud.ensure s key p d = mapGet s.cache key) ∧
    ((mapGet s.cache key).typeofObject = true →
      Cloud.ensure s key p d = lodashGetD (mapGet s.cache key) p d) := by
  refine ⟨?_, ?_, ?_⟩
  · intro h
    simp [Cloud.ensure, h]
  · intro h1 h2
    simp [Cloud.ensure, h1, h2]
  · intro h
    have h1 : (mapGet s.cache key).isUndef = false := by
      cases hv : mapGet s.cache key <;> simp_all [Value.typeofObject, Value.isUndef]
    simp [Cloud.ensure, h1, h]

/-- C5 witness: the amended theorem applied to concrete states: an
absent key yields the default, a present scalar key yields the scalar,
and a present nested key yields the resolved sub-value. -/
theorem C5_ensure_amended_witness :
    Cloud.ensure fixState (JsKey.str "zz") ["b"] (Value.num 7) = Value.num 7 ∧
    Cloud.ensure fixState (JsKey.str "sc") ["b"] (Value.num 7) = Value.num 3 ∧
    Cloud.ensure fixState (JsKey.str "k") ["a"] (Value.num 7) = Value.num 1 :=
  ⟨(C5_ensure_amended fixState (JsKey.str "zz") ["b"] (Value.num 7)).1 rfl,
   ((C5_ensure_amended fixState (JsKey.str "sc") ["b"] (Value.num 7)).2.1 rfl rfl).trans rfl,
   ((C5_ensure_amended fixState (JsKey.str "k") ["a"] (Value.num 7)).2.2 rfl).trans rfl⟩

/-- C6: get(key, path?) returns the cached value; with a path given, a
value that is an object by the typeof test is resolved through the
lodash get (which yields the sub-value, or undefined when the path does
not resolve), while for a non-object (scalar) value the path is ignored
and the value returned as-is. -/
theorem C6_get (s : CloudState) (key : JsKey) (p : JsPath) :
    (Cloud.get s key none = mapGet s.cache key) ∧
    ((mapGet s.cache key).typeofObject = true →
      Cloud.get s key (some p) = lodashGet (mapGet s.cache key) p) ∧
    ((mapGet s.cache key).typeofObject = false →
      Cloud.get s key (some p) = mapGet s.cache key) := by
  refine ⟨rfl, ?_, ?_⟩
  · intro h
    simp [Cloud.get, h]
  · intro h
    simp [Cloud.get, h]

/-- C6 witness: the theorem applied to a concrete state: a nested key
resolves its path, a scalar key ignores it. -/
theorem C6_get_witness :
    Cloud.get fixState (JsKey.str "k") (some ["a"]) = Value.num 1 ∧
    Cloud.get fixState (JsKey.str "sc") (some ["a"]) = Value.num 3 ∧
    Cloud.get fixState (JsKey.str "k") (some ["b"]) = Value.undef :=
  ⟨((C6_get fixState (JsKey.str "k") ["a"]).2.1 rfl).trans rfl,
   ((C6_get fixState (JsKey.str "sc") ["a"]).2.2 rfl).trans rfl,
   ((C6_get fixState (JsKey.str "k") ["b"]).2.1 rfl).trans rfl⟩

/-- C10: a stored null is classified as an object by the typeof test,
so at the read interface get(key, path) with a non-empty path returns
undefined (not the stored null, which undefined differs from), and
ensure(key, path, default) returns the default. -/
theorem C10_null_reads (s : CloudState) (key : JsKey) (p : JsPath) (d : Value)
    (hnull : mapGet s.cache key = Value.null) (hp : p ≠ []) :
    Cloud.get s key (some p) = Value.undef ∧
    Value.undef ≠ Value.null ∧
    Cloud.ensure s key p d = d ∧
    Value.typeofObject Value.null = true := by
  refine ⟨?_, by simp, ?_, rfl⟩
  · simp [Cloud.get, hnull, Value.typeofObject, lodashGet_null]
  · simp [Cloud.ensure, hnull, Value.isUndef, Value.typeofObject, lodashGetD, lodashGet_null]

/-- C10 witness: the theorem applied to the fixture state whose key nl
stores null. -/
theorem C10_null_reads_witness :
    Cloud.get fixState (JsKey.str "nl") (some ["x"]) = Value.undef ∧
    Cloud.ensure fixState (JsKey.str "nl") ["x"] (Value.num 5) = Value.num 5 :=
  ⟨(C10_null_reads fixState (JsKey.str "nl") ["x"] (Value.num 5) rfl (by simp)).1,
   (C10_null_reads fixState (JsKey.str "nl") ["x"] (Value.num 5) rfl (by simp)).2.2.1⟩

/-- C9: for every key and defined value, set(key, value) followed by
get(key), both without a path, reads back exactly the value written. -/
theorem C9_roundtrip (stringify : Value → String) (s : CloudState) (key : JsKey) {v : Value}
    (hv : v.isUndef = false) :
    ∃ s', Cloud.set stringify s key none v = .ok s' ∧ Cloud.get s' key none = v := by
  obtain ⟨s', hset, _, _, hget⟩ := set_cache_get stringify none hv
  exact ⟨s', hset, hget⟩

/-- C9 witness: round-trip of a nested object value and of a scalar
value through a concrete state. -/
theorem C9_roundtrip_witness :
    (∃ s', Cloud.set stringifyFix fixState (JsKey.str "new") none
        (Value.obj [("x", Value.num 1)]) = .ok s' ∧
      Cloud.get s' (JsKey.str "new") none = Value.obj [("x", Value.num 1)]) ∧
    (∃ s', Cloud.set stringifyFix fixState (JsKey.str "sc") none (Value.num 8) = .ok s' ∧
      Cloud.get s' (JsKey.str "sc") none = Value.num 8) :=
  ⟨C9_roundtrip stringifyFix fixState (JsKey.str "new") rfl,
   C9_roundtrip stringifyFix fixState (JsKey.str "sc") rfl⟩

/-- C2: set(key, path?, value) rejects an undefined value with the
InvalidValue error; otherwise, with a path given, when the current
cached value is a plain object the new cached value is the lodash
deep-set of the value at the path inside it, while for any non-plain
current value (absent key or prior scalar, which is discarded) the new
cached value is the deep-set inside a fresh empty object; without a
path the new cached value is the value verbatim. -/
theorem C2_set_semantics (stringify : Value → String) (s : CloudState) (key : JsKey)
    (p : JsPath) (path : Option JsPath) {v : Value} :
    (Cloud.set stringify s key path Value.undef = .error .invalidValue) ∧
    (v.isUndef = false → (mapGet s.cache key).isPlainObject = true →
      ∃ s', Cloud.set stringify s key (some p) v = .ok s' ∧
        mapGet s'.cache key = baseSet (mapGet s.cache key) p v) ∧
    (v.isUndef = false → (mapGet s.cache key).isPlainObject = false →
      ∃ s', Cloud.set stringify s key (some p) v = .ok s' ∧
        mapGet s'.cache key = baseSet (Value.obj []) p v) ∧
    (v.isUndef = false →
      ∃ s', Cloud.set stringify s key none v = .ok s' ∧ mapGet s'.cache key = v) := by
  refine ⟨rfl, ?_, ?_, ?_⟩
  · intro hv hpl
    obtain ⟨s', hset, _, hget, _⟩ := set_cache_get stringify (some p) hv
    refine ⟨s', hset, ?_⟩
    rw [hget]
    simp [Cloud.setNewValue, hpl]
  · intro hv hpl
    obtain ⟨s', hset, _, hget, _⟩ := set_cache_get stringify (some p) hv
    refine ⟨s', hset, ?_⟩
    rw [hget]
    simp [Cloud.setNewValue, hpl]
  · intro hv
    obtain ⟨s', hset, _, hget, _⟩ := set_cache_get stringify none hv
    exact ⟨s', hset, hget⟩

/-- C2 witness: the theorem applied to a concrete state: a deep-set
into the nested key k preserving its sibling, a deep-set over the
scalar key sc discarding the scalar, and a verbatim write. -/
theorem C2_set_semantics_witness :
    (∃ s', Cloud.set stringifyFix fixState (JsKey.str "k") (some ["y"]) (Value.num 2) = .ok s' ∧
      mapGet s'.cache (JsKey.str "k") = Value.obj [("a", Value.num 1), ("y", Value.num 2)]) ∧
    (∃ s', Cloud.set stringifyFix fixState (JsKey.str "sc") (some ["y"]) (Value.num 2) = .ok s' ∧
      mapGet s'.cache (JsKey.str "sc") = Value.obj [("y", Value.num 2)]) ∧
    (∃ s', Cloud.set stringifyFix fixState (JsKey.str "k") none (Value.num 4) = .ok s' ∧
      mapGet s'.cache (JsKey.str "k") = Value.num 4) := by
  refine ⟨?_, ?_, ?_⟩
  · obtain ⟨s', hset, hget⟩ :=
      (C2_set_semantics stringifyFix fixState (JsKey.str "k") ["y"] none (v := Value.num 2)).2.1
        rfl rfl
    exact ⟨s', hset, hget.trans rfl⟩
  · obtain ⟨s', hset, hget⟩ :=
      (C2_set_semantics stringifyFix fixState (JsKey.str "sc") ["y"] none (v := Value.num 2)).2.2.1
        rfl rfl
    exact ⟨s', hset, hget.trans rfl⟩
  · obtain ⟨s', hset, hget⟩ :=
      (C2_set_semantics stringifyFix fixState (JsKey.str "k") ["y"] none (v := Value.num 4)).2.2.2
        rfl
    exact ⟨s', hset, hget⟩

theorem spreadsheetSetR_cache (stringify : Value → String) (b : Bool) (key : JsKey) (v : Value)
    (s : CloudState) : (spreadsheetSetR stringify b key v s).cache = s.cache := by
  cases b <;> simp [spreadsheetSetR]

theorem spreadsheetAppendR_cache (stringify : Value → String) (b : Bool) (key : JsKey) (v : Value)
    (s : CloudState) : (spreadsheetAppendR stringify b key v s).cache = s.cache := by
  cases b <;> simp [spreadsheetAppendR]

/-- C8: during a set call with a defined value, the Cache is mutated by
the synchronous prefix (the state reached at the first await), so a
reader calling get there, before the returned promise settles, already
observes the new value; and for either replication outcome (the Bool
result: true for a fulfilled remote call, false for a rejected one and
hence a rejected completion) the final Cache is the same, already
mutated, one: the mutation is not rolled back on failure. -/
theorem C8_cache_before_replication (stringify : Value → String) (s : CloudState)
    (key : JsKey) (path : Option JsPath) {v : Value} (hv : v.isUndef = false) :
    ∃ s₁, Cloud.setSyncState s key path v = .ok s₁ ∧
      s₁.cache = mapSet s.cache key (Cloud.setNewValue s key path v) ∧
      Cloud.get s₁ key none = Cloud.setNewValue s key path v ∧
      ∀ b, ∃ s', Cloud.setR stringify b s key path v = .ok (s', b) ∧ s'.cache = s₁.cache := by
  by_cases hcur : (mapGet s.cache key).isUndef = true
  · refine ⟨⟨mapSet s.cache key (Cloud.setNewValue s key path v),
        s.keyRowNumbers ++ [key], s.sheet, s.ops⟩, ?_, rfl, ?_, ?_⟩
    · simp [Cloud.setSyncState, hv, hcur]
    · exact mapGet_mapSet_self _ _ _
    · intro b
      rw [setR_absent stringify b path hcur hv]
      exact ⟨_, rfl, spreadsheetAppendR_cache stringify b _ _ _⟩
  · rw [Bool.not_eq_true] at hcur
    refine ⟨⟨mapSet s.cache key (Cloud.setNewValue s key path v),
        s.keyRowNumbers, s.sheet, s.ops⟩, ?_, rfl, ?_, ?_⟩
    · simp [Cloud.setSyncState, hv, hcur]
    · exact mapGet_mapSet_self _ _ _
    · intro b
      rw [setR_present stringify b path hcur hv]
      exact ⟨_, rfl, spreadsheetSetR_cache stringify b _ _ _⟩

/-- C8 witness: the theorem applied to a concrete state and value. -/
theorem C8_cache_before_replication_witness :
    ∃ s₁, Cloud.setSyncState fixState (JsKey.str "k") none (Value.num 9) = .ok s₁ ∧
      s₁.cache = mapSet fixState.cache (JsKey.str "k")
        (Cloud.setNewValue fixState (JsKey.str "k") none (Value.num 9)) ∧
      Cloud.get s₁ (JsKey.str "k") none
        = Cloud.setNewValue fixState (JsKey.str "k") none (Value.num 9) ∧
      ∀ b, ∃ s', Cloud.setR stringifyFix b fixState (JsKey.str "k") none (Value.num 9)
          = .ok (s', b) ∧ s'.cache = s₁.cache :=
  C8_cache_before_replication stringifyFix fixState (JsKey.str "k") none rfl

/-- C3: delete(key, path?) is a no-op returning the unchanged state
when the cached value is undefined (key absent); with a path it fails
with InvalidOperation unless the current value is a plain object, and
on a plain object it equals re-invoking set with the lodash-unset
remainder, whose replication is a single cell update request, not a row
deletion; without a path, on a well-formed state with the key at
position i of _keyRowNumbers, the key leaves Cache and _keyRowNumbers,
the single remote request deletes exactly rows [i + 1, i + 2) (the
key's data row, remote row i + 2), and get(key) afterwards returns
undefined for every path argument. -/
theorem C3_delete_semantics (stringify : Value → String) (s : CloudState) (key : JsKey)
    (p : JsPath) :
    ((mapGet s.cache key).isUndef = true →
      ∀ q, Cloud.delete stringify s key q = .ok s) ∧
    ((mapGet s.cache key).isUndef = false → (mapGet s.cache key).isPlainObject = false →
      Cloud.delete stringify s key (some p) = .error .invalidOperation) ∧
    ((mapGet s.cache key).isPlainObject = true →
      Cloud.delete stringify s key (some p)
          = Cloud.set stringify s key none (baseUnset (mapGet s.cache key) p) ∧
      ∃ s' payload, Cloud.delete stringify s key (some p) = .ok s' ∧
        s'.ops = s.ops ++ [RemoteOp.updateCell (jsIndexOf s.keyRowNumbers key + 2) payload]) ∧
    (Wf s → ∀ i, s.keyRowNumbers[i]? = some key →
      ∃ s', Cloud.delete stringify s key none = .ok s' ∧
        mapGet s'.cache key = Value.undef ∧
        (∀ q, Cloud.get s' key q = Value.undef) ∧
        key ∉ s'.keyRowNumbers ∧
        s'.keyRowNumbers = s.keyRowNumbers.take i ++ s.keyRowNumbers.drop (i + 1) ∧
        s'.ops = s.ops ++ [RemoteOp.deleteRows ((i : Int) + 1) ((i : Int) + 2)]) := by
  refine ⟨?_, ?_, ?_, ?_⟩
  · intro h q
    simp [Cloud.delete, h]
  · intro h1 h2
    simp [Cloud.delete, h1, h2]
  · intro hpl
    obtain ⟨fields, hf⟩ := isPlainObject_obj hpl
    have hcur : (mapGet s.cache key).isUndef = false := by
      rw [hf]
      rfl
    have heq : Cloud.delete stringify s key (some p)
        = Cloud.set stringify s key none (baseUnset (mapGet s.cache key) p) := by
      simp [Cloud.delete, hcur, hpl]
    refine ⟨heq, ?_⟩
    have hvd : (baseUnset (mapGet s.cache key) p).isUndef = false := by
      rw [hf]
      obtain ⟨g, hg⟩ := isPlainObject_obj (baseUnset_obj_isPlain fields p)
      rw [hg]
      rfl
    rw [heq, set_present stringify none hcur hvd, spreadsheetSetR_true]
    exact ⟨_, _, rfl, rfl⟩
  · intro hwf i hget
    obtain ⟨s', hdel, hkrn, hcache, hsheet, hops, hwf'⟩ := delete_at_index stringify hwf hget
    have hund : mapGet s'.cache key = Value.undef := by
      rw [hcache]
      exact mapGet_mapDelete_self (hwf.1 ▸ hwf.2.2.1)
    refine ⟨s', hdel, hund, ?_, ?_, hkrn, hops⟩
    · intro q
      cases q with
      | none => exact hund
      | some pq => simp [Cloud.get, hund, Value.typeofObject]
    · rw [hkrn]
      have hsplit := getElem?_split hget
      obtain ⟨h1, h2, _⟩ := nodup_middle_parts (hsplit ▸ hwf.2.2.1)
      simp only [List.mem_append]
      rintro (h | h)
      · exact h1 h
      · exact h2 h

/-- C3 witness: the theorem applied to the hydrated fixture: absent key
no-op, path against a scalar rejected, and a no-path delete of the key
at position 0. -/
theorem C3_delete_semantics_witness :
    (Cloud.delete stringifyFix fixState (JsKey.str "zz") none = .ok fixState) ∧
    (Cloud.delete stringifyFix fixState (JsKey.str "sc") (some ["a"])
        = .error .invalidOperation) ∧
    (∃ s', Cloud.delete stringifyFix fixState (JsKey.str "k") none = .ok s' ∧
      mapGet s'.cache (JsKey.str "k") = Value.undef ∧
      (∀ q, Cloud.get s' (JsKey.str "k") q = Value.undef) ∧
      JsKey.str "k" ∉ s'.keyRowNumbers ∧
      s'.keyRowNumbers = fixState.keyRowNumbers.take 0 ++ fixState.keyRowNumbers.drop 1 ∧
      s'.ops = fixState.ops ++ [RemoteOp.deleteRows ((0 : Int) + 1) ((0 : Int) + 2)]) :=
  ⟨(C3_delete_semantics stringifyFix fixState (JsKey.str "zz") ["a"]).1 rfl none,
   (C3_delete_semantics stringifyFix fixState (JsKey.str "sc") ["a"]).2.1 rfl rfl,
   (C3_delete_semantics stringifyFix fixState (JsKey.str "k") ["a"]).2.2.2
     ⟨rfl, rfl, by decide, by decide⟩ 0 rfl⟩

/-- C4: deleteAll leaves Cache and _keyRowNumbers empty, and on a
well-formed state appends exactly one remote request, a bulk
deleteDimension of the contiguous full-sheet row range
[1, prior key count + 1), which removes exactly the data rows of all
previously known keys, leaving no data row behind (no per-row
deletions are issued). -/
theorem C4_deleteAll_bulk (s : CloudState) (hwf : Wf s) :
    (Cloud.deleteAll s).cache = [] ∧
    (Cloud.deleteAll s).keyRowNumbers = [] ∧
    (Cloud.deleteAll s).sheet = [] ∧
    (Cloud.deleteAll s).ops
      = s.ops ++ [RemoteOp.deleteRows 1 ((s.keyRowNumbers.length : Int) + 1)] := by
  obtain ⟨hc, hk, hs, ho⟩ := deleteAll_spec s
  refine ⟨hc, hk, ?_, ho⟩
  have hlen : s.sheet.length = s.keyRowNumbers.length := by
    rw [← hwf.2.1]
    simp
  rw [hs, ← hlen, List.drop_length]

/-- C4 witness: the theorem applied to the concrete fixture state. -/
theorem C4_deleteAll_bulk_witness :
    (Cloud.deleteAll fixState).cache = [] ∧
    (Cloud.deleteAll fixState).keyRowNumbers = [] ∧
    (Cloud.deleteAll fixState).sheet = [] ∧
    (Cloud.deleteAll fixState).ops
      = fixState.ops ++ [RemoteOp.deleteRows 1 ((fixState.keyRowNumbers.length : Int) + 1)] :=
  C4_deleteAll_bulk fixState ⟨rfl, rfl, by decide, by decide⟩

/-- C7: hydration never reads the header row (replacing it leaves the
result unchanged); _keyRowNumbers receives exactly the keys of the
successfully decoded data rows in row order and the Map receives their
(key, value) entries in that order (a row whose decode throws
contributes nothing, without stopping the loop, as the filterMap over
decoded rows shows); and a row whose two columns are present decodes
column A's text as the key and column B's text through the parse,
falling back to the raw string when the parse throws. -/
theorem C7_hydration (parse : String → Option Value) (rowCount : Nat) (rowData : List GridRow)
    (r₀ r₀' : GridRow) (rest : List GridRow) (s₀ : CloudState) :
    (fetchEverything parse rowCount (r₀ :: rest) s₀
        = fetchEverything parse rowCount (r₀' :: rest) s₀) ∧
    ((hydrate parse rowCount rowData).keyRowNumbers
        = (decodedRows parse rowCount rowData).map Prod.fst) ∧
    ((hydrate parse rowCount rowData).cache
        = (decodedRows parse rowCount rowData).foldl (fun m p => mapSet m p.1 p.2) []) ∧
    (∀ cells c0 c1 t u, cells[0]? = some c0 → cells[1]? = some c1 →
      c0.formattedValue = some t → c1.formattedValue = some u →
      hydrateRow parse (some cells) = some (JsKey.str t, (parse u).getD (Value.str u))) ∧
    (hydrateRow parse none = none) := by
  refine ⟨?_, (hydrate_spec parse rowCount rowData).1, (hydrate_spec parse rowCount rowData).2.1,
    ?_, rfl⟩
  · have hstep : ∀ (st : CloudState) (i : Nat),
        fetchStep parse (r₀ :: rest) st i = fetchStep parse (r₀' :: rest) st i := by
      intro st i
      simp [fetchStep]
    have hfold : ∀ (l : List Nat) (st : CloudState),
        l.foldl (fetchStep parse (r₀ :: rest)) st = l.foldl (fetchStep parse (r₀' :: rest)) st := by
      intro l
      induction l with
      | nil => intro st; rfl
      | cons i t ih =>
        intro st
        simp only [List.foldl_cons, hstep, ih]
    exact hfold _ s₀
  · intro cells c0 c1 t u h0 h1 hf0 hf1
    simp [hydrateRow, h0, h1, hf0, hf1]

/-- C7 witness: the decode-shape part of the theorem applied to the
two concrete data rows of the fixture grid: (a, 1) parses, (b, bv)
falls back to the raw string. -/
theorem C7_hydration_witness :
    hydrateRow parseFix (some [⟨some "a"⟩, ⟨some "1"⟩])
        = some (JsKey.str "a", Value.num 1) ∧
    hydrateRow parseFix (some [⟨some "b"⟩, ⟨some "bv"⟩])
        = some (JsKey.str "b", Value.str "bv") :=
  ⟨(C7_hydration parseFix 3 rowsFix none none [] fixState).2.2.2.1
      [⟨some "a"⟩, ⟨some "1"⟩] ⟨some "a"⟩ ⟨some "1"⟩ "a" "1" rfl rfl rfl rfl,
   (C7_hydration parseFix 3 rowsFix none none [] fixState).2.2.2.1
      [⟨some "b"⟩, ⟨some "bv"⟩] ⟨some "b"⟩ ⟨some "bv"⟩ "b" "bv" rfl rfl rfl rfl⟩

/-- C1: for one store instance, in any state reached from a well-formed
hydration by any sequence of committed public mutations:
_keyRowNumbers and the Map have the same size, and position for
position the remote data rows carry exactly the keys of _keyRowNumbers
(so RowIndex[i] is the key of remote row i + 2); deleting the key at
position i removes exactly its own data row and its own index entry,
shifting every later key one position down; and a subsequent set on a
key that sat at a later position j resolves that key's new shifted row
from the current order of _keyRowNumbers, targeting remote row j + 1
(formerly j + 2). -/
theorem C1_row_invariant (stringify : Value → String) (parse : String → Option Value)
    (rowCount : Nat) (rowData : List GridRow)
    (hg : WfGrid parse rowCount rowData) :
    ∀ acts s, s = runActions stringify (hydrate parse rowCount rowData) acts →
      (s.keyRowNumbers.length = s.cache.length ∧
       s.sheet.map Prod.fst = s.keyRowNumbers) ∧
      (∀ (i : Nat) (key : JsKey), s.keyRowNumbers[i]? = some key →
        ∃ s', Cloud.delete stringify s key none = .ok s' ∧
          s'.keyRowNumbers = s.keyRowNumbers.take i ++ s.keyRowNumbers.drop (i + 1) ∧
          s'.sheet = s.sheet.take i ++ s.sheet.drop (i + 1)) ∧
      (∀ (i j : Nat) (key key' : JsKey) (p : Option JsPath) (v : Value),
        s.keyRowNumbers[i]? = some key →
        s.keyRowNumbers[j]? = some key' → i < j → v.isUndef = false →
        ∃ s' s'' payload, Cloud.delete stringify s key none = .ok s' ∧
          Cloud.set stringify s' key' p v = .ok s'' ∧
          s''.ops = s'.ops ++ [RemoteOp.updateCell ((j : Int) + 1) payload]) := by
  intro acts s hs
  have hwf : Wf s := hs ▸ Wf_runActions stringify acts (Wf_hydrate hg)
  refine ⟨⟨?_, hwf.2.1⟩, ?_, ?_⟩
  · rw [← hwf.1]
    simp
  · intro i key hget
    obtain ⟨s', hdel, hkrn, _, hsheet, _, _⟩ := delete_at_index stringify hwf hget
    exact ⟨s', hdel, hkrn, hsheet⟩
  · intro i j key key' p v hi hj hij hv
    obtain ⟨hlt_i, _⟩ := List.getElem?_eq_some.mp hi
    obtain ⟨s', hdel, hkrn', _, _, _, hwf'⟩ := delete_at_index stringify hwf hi
    have h1 : (s.keyRowNumbers.take i).length = i := length_take_of_lt hlt_i
    have hj' : s'.keyRowNumbers[j - 1]? = some key' := by
      rw [hkrn']
      rw [List.getElem?_append_right (by rw [h1]; omega)]
      rw [h1, List.getElem?_drop]
      have h2 : i + 1 + (j - 1 - i) = j := by omega
      rw [h2]
      exact hj
    obtain ⟨s'', hset, hops'', _, _, _⟩ := set_at_index stringify hwf' hj' p hv
    refine ⟨s', s'', encodeCell stringify (Cloud.setNewValue s' key' p v), hdel, hset, ?_⟩
    rw [hops'']
    have h3 : ((j - 1 : Nat) : Int) + 2 = (j : Int) + 1 := by omega
    rw [h3]

/-- C1 witness: the invariant at the hydrated fixture (no mutations):
two keys, two cached entries, remote data rows keyed a then b. -/
theorem C1_row_invariant_witness :
    (runActions stringifyFix (hydrate parseFix 3 rowsFix) []).keyRowNumbers.length
        = (runActions stringifyFix (hydrate parseFix 3 rowsFix) []).cache.length ∧
    (runActions stringifyFix (hydrate parseFix 3 rowsFix) []).sheet.map Prod.fst
        = (runActions stringifyFix (hydrate parseFix 3 rowsFix) []).keyRowNumbers :=
  (C1_row_invariant stringifyFix parseFix 3 rowsFix ⟨by decide, by decide, by decide⟩ []
    (runActions stringifyFix (hydrate parseFix 3 rowsFix) []) rfl).1

end KFDatacloud
